import Mathlib

/-!
Verification of the Huobi spot REST client
(`alpha/platforms/huobi_spot_api.py`): the signature engine
(`HuobiSpotRestAPI.generate_signature`) and the request dispatcher
(`HuobiSpotRestAPI.request`).

The embedding is executable: bytes are `Nat` values below 256, machine
words are `Nat` values reduced modulo `2 ^ 32`, and the library calls the
source makes (`hashlib.sha256`, `hmac`, `base64.b64encode`,
`urllib.parse.urlencode`, `urllib.parse.urlparse`, `urljoin`,
`json.loads`) are given concrete executable definitions of the standard
algorithms they implement, so that every property can be evaluated on
concrete inputs by kernel reduction.
-/

namespace HuobiSpot

/-! ### Bytes and UTF-8 -/

/-- UTF-8 encoding of a single character (code point as `Nat`). -/
def utf8Char (c : Char) : List Nat :=
  let n := c.toNat
  if n < 128 then [n]
  else if n < 2048 then [192 + n / 64, 128 + n % 64]
  else if n < 65536 then [224 + n / 4096, 128 + (n / 64) % 64, 128 + n % 64]
  else [240 + n / 262144, 128 + (n / 4096) % 64, 128 + (n / 64) % 64, 128 + n % 64]

/-- UTF-8 encoding of a string, as a list of bytes; models Python's
`str.encode("utf8")`. -/
def utf8 (s : String) : List Nat :=
  s.data.foldr (fun c acc => utf8Char c ++ acc) []

/-! ### SHA-256 (the algorithm behind `hashlib.sha256`) -/

/-- Modulus for 32-bit words. -/
def m32 : Nat := 4294967296

/-- Right rotation of a 32-bit word. -/
def rotr32 (n x : Nat) : Nat :=
  ((x >>> n) ||| (x <<< (32 - n))) % m32

/-- Addition modulo `2 ^ 32`. -/
def add32 (a b : Nat) : Nat := (a + b) % m32

/-- Bitwise complement of a 32-bit word. -/
def not32 (x : Nat) : Nat := 4294967295 - x

/-- SHA-256 round constants (FIPS 180-4, written in decimal). -/
def sha256K : List Nat :=
  [1116352408, 1899447441, 3049323471, 3921009573, 961987163, 1508970993,
   2453635748, 2870763221, 3624381080, 310598401, 607225278, 1426881987,
   1925078388, 2162078206, 2614888103, 3248222580, 3835390401, 4022224774,
   264347078, 604807628, 770255983, 1249150122, 1555081692, 1996064986,
   2554220882, 2821834349, 2952996808, 3210313671, 3336571891, 3584528711,
   113926993, 338241895, 666307205, 773529912, 1294757372, 1396182291,
   1695183700, 1986661051, 2177026350, 2456956037, 2730485921, 2820302411,
   3259730800, 3345764771, 3516065817, 3600352804, 4094571909, 275423344,
   430227734, 506948616, 659060556, 883997877, 958139571, 1322822218,
   1537002063, 1747873779, 1955562222, 2024104815, 2227730452, 2361852424,
   2428436474, 2756734187, 3204031479, 3329325298]

/-- SHA-256 initial hash state (FIPS 180-4, written in decimal). -/
def sha256H0 : List Nat :=
  [1779033703, 3144134277, 1013904242, 2773480762, 1359893119, 2600822924,
   528734635, 1541459225]

/-- SHA-256 message padding: append `0x80`, zeros, and the 64-bit
big-endian bit length, reaching a multiple of 64 bytes. -/
def sha256Pad (msg : List Nat) : List Nat :=
  let len := msg.length
  let bitLen := len * 8
  let zeroCount := (55 + 64 - (len % 64)) % 64
  let lenBytes := (List.range 8).map (fun i => (bitLen >>> ((7 - i) * 8)) % 256)
  msg ++ [0x80] ++ List.replicate zeroCount 0 ++ lenBytes

/-- Read a 64-byte block as sixteen big-endian 32-bit words. -/
def sha256Words (block : List Nat) : List Nat :=
  (List.range 16).map (fun i =>
    (block.getD (4 * i) 0) * 16777216 + (block.getD (4 * i + 1) 0) * 65536 +
    (block.getD (4 * i + 2) 0) * 256 + block.getD (4 * i + 3) 0)

/-- Extend sixteen schedule words to sixty-four. -/
def sha256Schedule (w16 : List Nat) : List Nat :=
  (List.range 48).foldl (fun w _ =>
    let n := w.length
    let x15 := w.getD (n - 15) 0
    let x2 := w.getD (n - 2) 0
    let s0 := Nat.xor (rotr32 7 x15) (Nat.xor (rotr32 18 x15) (x15 >>> 3))
    let s1 := Nat.xor (rotr32 17 x2) (Nat.xor (rotr32 19 x2) (x2 >>> 10))
    w ++ [(w.getD (n - 16) 0 + s0 + w.getD (n - 7) 0 + s1) % m32]) w16

/-- One SHA-256 compression step over a 64-byte block. -/
def sha256Compress (h : List Nat) (block : List Nat) : List Nat :=
  let w := sha256Schedule (sha256Words block)
  let st := (List.range 64).foldl (fun st i =>
    match st with
    | [a, b, c, d, e, f, g, hh] =>
      let S1 := Nat.xor (rotr32 6 e) (Nat.xor (rotr32 11 e) (rotr32 25 e))
      let ch := Nat.xor (Nat.land e f) (Nat.land (not32 e) g)
      let t1 := (hh + S1 + ch + sha256K.getD i 0 + w.getD i 0) % m32
      let S0 := Nat.xor (rotr32 2 a) (Nat.xor (rotr32 13 a) (rotr32 22 a))
      let maj := Nat.xor (Nat.land a b) (Nat.xor (Nat.land a c) (Nat.land b c))
      let t2 := (S0 + maj) % m32
      [(t1 + t2) % m32, a, b, c, (d + t1) % m32, e, f, g]
    | other => other) h
  (List.zip h st).map (fun p => add32 p.1 p.2)

/-- SHA-256 digest of a byte list, as 32 bytes. -/
def sha256 (msg : List Nat) : List Nat :=
  let padded := sha256Pad msg
  let nblocks := padded.length / 64
  let hFinal := (List.range nblocks).foldl
    (fun h i => sha256Compress h ((padded.drop (64 * i)).take 64)) sha256H0
  hFinal.foldr (fun w acc =>
    [w / 16777216, (w / 65536) % 256, (w / 256) % 256, w % 256] ++ acc) []

/-! ### HMAC-SHA256 (the algorithm behind `hmac.new(..., digestmod=hashlib.sha256)`) -/

/-- HMAC-SHA256 of a message under a key, both byte lists; 32-byte digest. -/
def hmacSha256 (key msg : List Nat) : List Nat :=
  let k0 := if 64 < key.length then sha256 key else key
  let k := k0 ++ List.replicate (64 - k0.length) 0
  let ipad := k.map (fun b => Nat.xor b 0x36)
  let opad := k.map (fun b => Nat.xor b 0x5c)
  sha256 (opad ++ sha256 (ipad ++ msg))

/-! ### Base64 (the algorithm behind `base64.b64encode`) -/

/-- Standard base64 alphabet. -/
def b64Alphabet : List Char :=
  "ABCDEFGHIJKLMNOPQRSTUVWXYZabcdefghijklmnopqrstuvwxyz0123456789+/".data

/-- Character for a 6-bit group. -/
def b64Char (n : Nat) : Char := b64Alphabet.getD n 'A'

/-- Base64 encoding of a byte list, with `=` padding. -/
def b64encodeList : List Nat → List Char
  | [] => []
  | [a] => [b64Char (a / 4), b64Char ((a % 4) * 16), '=', '=']
  | [a, b] => [b64Char (a / 4), b64Char ((a % 4) * 16 + b / 16), b64Char ((b % 16) * 4), '=']
  | a :: b :: c :: rest =>
    [b64Char (a / 4), b64Char ((a % 4) * 16 + b / 16), b64Char ((b % 16) * 4 + c / 64),
     b64Char (c % 64)] ++ b64encodeList rest

/-- Base64 encoding returned as a string, matching
`base64.b64encode(digest).decode()`. -/
def b64encode (bytes : List Nat) : String := String.mk (b64encodeList bytes)

/-! ### String helpers -/

/-- Bytewise prefix test on the character lists of two strings; models
Python's `str.startswith`. -/
def strStartsWith (s pfx : String) : Bool := pfx.data.isPrefixOf s.data

/-- Split a character list at every occurrence of `c`, keeping empty
pieces; models Python's `str.split(sep)` for a one-character separator. -/
def splitChar (c : Char) : List Char → List (List Char)
  | [] => [[]]
  | x :: xs =>
    match splitChar c xs, decide (x = c) with
    | r, true => [] :: r
    | [], false => [[x]]
    | y :: ys, false => (x :: y) :: ys

/-- Join character lists with a separator character; models
`sep.join(pieces)`. -/
def joinChar (c : Char) (xs : List (List Char)) : List Char :=
  match xs with
  | [] => []
  | [y] => y
  | y :: ys => y ++ c :: joinChar c ys

/-- ASCII lower-casing of a string; agrees with Python's `str.lower` on
the ASCII host names at issue. -/
def strLower (s : String) : String := String.mk (s.data.map Char.toLower)

/-- True when the string is an absolute URL in the sense the source tests
for: it starts with `http://` or `https://`. -/
def isAbsUrl (s : String) : Bool := strStartsWith s "http://" || strStartsWith s "https://"

/-! ### URL parsing (the fragment of `urllib.parse` the source uses) -/

/-- Length of the scheme prefix of a URL, `http://` or `https://`. -/
def schemePrefixLen (url : String) : Nat :=
  if strStartsWith url "http://" then 7
  else if strStartsWith url "https://" then 8
  else 0

/-- Hostname of a URL that starts with `http://` or `https://`: the
authority is the run of characters after the scheme separator up to the
first `/`, `?` or `#`; user info up to a final `@` is dropped, a `:port`
suffix is dropped, and the result is lower-cased. Models
`urllib.parse.urlparse(url).hostname` on such URLs. -/
def urlparseHostname (url : String) : String :=
  let rest := url.data.drop (schemePrefixLen url)
  let netloc := rest.takeWhile (fun c => !(c = '/' || c = '?' || c = '#'))
  let hostinfo := (splitChar '@' netloc).getLastD []
  strLower (String.mk (hostinfo.takeWhile (fun c => !(c = ':'))))

/-- Join of a base URL and a path-absolute reference (one starting with
`/`): scheme and authority of the base, path of the reference. Models
`urllib.parse.urljoin(base, ref)` for the path-absolute references the
client passes. -/
def urljoinAbsPath (base ref : String) : String :=
  let pre := base.data.take (schemePrefixLen base)
  let rest := base.data.drop (schemePrefixLen base)
  let netloc := rest.takeWhile (fun c => !(c = '/' || c = '?' || c = '#'))
  String.mk (pre ++ netloc) ++ ref

/-- Path-only component of an absolute URL, as the spec describes it:
scheme and host stripped, leading slash preserved — everything from the
first `/` after the authority on. -/
def urlPathComponent (url : String) : String :=
  String.mk ((url.data.drop (schemePrefixLen url)).dropWhile (fun c => !(c = '/')))

/-! ### Form encoding (the algorithm behind `urllib.parse.urlencode`) -/

/-- Bytes that `urllib.parse.quote` never escapes: ASCII letters, digits,
and `_`, `.`, `-`, `~`. -/
def alwaysSafeByte (b : Nat) : Bool :=
  (65 ≤ b && b ≤ 90) || (97 ≤ b && b ≤ 122) || (48 ≤ b && b ≤ 57) ||
    b = 95 || b = 46 || b = 45 || b = 126

/-- Upper-case hexadecimal digit. -/
def hexDigit (n : Nat) : Char := "0123456789ABCDEF".data.getD n '0'

/-- Form quoting of one string: UTF-8 encode, map space to `+`, keep
always-safe bytes, percent-encode the rest with upper-case hex. Models
`urllib.parse.quote_plus` with empty `safe`, the quoting `urlencode`
applies to each key and value. -/
def quotePlus (s : String) : String :=
  String.mk ((utf8 s).foldr (fun b acc =>
    (if b = 32 then ['+']
     else if alwaysSafeByte b then [Char.ofNat b]
     else ['%', hexDigit (b / 16), hexDigit (b % 16)]) ++ acc) [])

/-- Form encoding of a key-value sequence in its given order; models
`urllib.parse.urlencode`. -/
def urlencode (ps : List (String × String)) : String :=
  String.intercalate "&" (ps.map (fun p => quotePlus p.1 ++ "=" ++ quotePlus p.2))

/-! ### Sorting (the call `sorted(params.items(), key=lambda d: d[0])`) -/

/-- Lexicographic strict comparison of character lists by code point;
models Python's `<` on strings (which compares code points; on UTF-8
encoded text this coincides with byte-wise comparison). -/
def charListLT : List Char → List Char → Bool
  | [], [] => false
  | [], _ :: _ => true
  | _ :: _, [] => false
  | a :: as, b :: bs =>
    if a < b then true
    else if b < a then false
    else charListLT as bs

/-- Non-strict string comparison derived from `charListLT`. -/
def strLE (a b : String) : Bool := !(charListLT b.data a.data)

/-- Comparison on pairs by key, the order `sorted` is asked for
(`key=lambda d: d[0]`). -/
def keyLE (p q : String × String) : Prop := strLE p.1 q.1 = true

instance : DecidableRel keyLE := fun p q => Bool.decEq (strLE p.1 q.1) true

/-- Stable ascending sort of a key-value sequence by key; models
`sorted(params.items(), key=lambda d: d[0], reverse=False)` (Python's
sort is stable, and insertion sort with a non-strict order is stable). -/
def sortParams (ps : List (String × String)) : List (String × String) :=
  List.insertionSort keyLE ps

/-! ### The signature engine (`HuobiSpotRestAPI.generate_signature`) -/

/-- Host and path resolution of `generate_signature`: an absolute
`request_path` contributes its own lower-cased hostname and its
`'/' + '/'.join(request_path.split('/')[3:])` path rewrite, a relative
one is kept as is and paired with the configured host's hostname. -/
def sigHostAndPath (host request_path : String) : String × String :=
  if isAbsUrl request_path then
    (strLower (urlparseHostname request_path),
     String.mk ('/' :: joinChar '/' ((splitChar '/' request_path.data).drop 3)))
  else
    (strLower (urlparseHostname host), request_path)

/-- Canonical payload of `generate_signature`: the four fields joined by
newlines, `"\n".join([method, host_url, request_path, encode_params])`. -/
def signPayload (host method : String) (params : List (String × String))
    (request_path : String) : String :=
  let hp := sigHostAndPath host request_path
  String.intercalate "\n" [method, hp.1, hp.2, urlencode (sortParams params)]

/-- The signature engine, translated from
`HuobiSpotRestAPI.generate_signature`: HMAC-SHA256 of the UTF-8 canonical
payload under the UTF-8 secret key, base64-encoded and decoded to a
string. `host` and `secret_key` stand for `self._host` and
`self._secret_key`. -/
def generate_signature (host secret_key method : String)
    (params : List (String × String)) (request_path : String) : String :=
  b64encode (hmacSha256 (utf8 secret_key) (utf8 (signPayload host method params request_path)))

/-! ### Insertion-ordered string dictionaries (Python `dict`) -/

/-- Query parameter mapping: an insertion-ordered association list with
unique keys, as a Python `dict` of strings presents itself. -/
abbrev Dict := List (String × String)

/-- Membership of a key. -/
def hasKey (d : Dict) (k : String) : Bool :=
  match d with
  | [] => false
  | p :: ps => if p.1 = k then true else hasKey ps k

/-- Assignment `d[k] = v` on an insertion-ordered dictionary: an existing
key keeps its position and changes its value, a new key is appended at
the end. -/
def dictInsert (d : Dict) (k v : String) : Dict :=
  if hasKey d k then d.map (fun p => if p.1 = k then (p.1, v) else p)
  else d ++ [(k, v)]

/-- Sequenced assignments, as `d.update({...})` performs them in the
literal's order. -/
def dictUpdate (d : Dict) (kvs : List (String × String)) : Dict :=
  kvs.foldl (fun d kv => dictInsert d kv.1 kv.2) d

/-! ### JSON values and `json.loads` -/

/-- JSON value as `json.loads` returns it; numbers are modelled as
integers, the only numeric shape the claims touch. -/
inductive Json where
  | null : Json
  | bool (b : Bool) : Json
  | num (n : Int) : Json
  | str (s : String) : Json
  | arr (xs : List Json) : Json
  | obj (fields : List (String × Json)) : Json

/-- Membership of a key in a JSON object. -/
def jObjHasKey (fs : List (String × Json)) (k : String) : Bool :=
  match fs with
  | [] => false
  | p :: ps => if p.1 = k then true else jObjHasKey ps k

/-- Assignment on an insertion-ordered JSON object, as building a Python
`dict` does (later duplicate keys overwrite in place). -/
def jObjInsert (fs : List (String × Json)) (k : String) (v : Json) : List (String × Json) :=
  if jObjHasKey fs k then fs.map (fun p => if p.1 = k then (p.1, v) else p)
  else fs ++ [(k, v)]

/-- Lookup `d.get(k)` on a JSON object. -/
def jObjGet (fs : List (String × Json)) (k : String) : Option Json :=
  match fs with
  | [] => none
  | p :: ps => if p.1 = k then some p.2 else jObjGet ps k

/-- JSON whitespace skip. -/
def skipWs (l : List Char) : List Char :=
  l.dropWhile (fun c => c = ' ' || c = '\t' || c = '\n' || c = '\r')

/-- Decimal digit test. -/
def isDigitCh (c : Char) : Bool := 48 ≤ c.toNat && c.toNat ≤ 57

/-- Parse a run of decimal digits (at least one) into a `Nat`. -/
def parseDigits : Nat → Nat → Bool → List Char → Option (Nat × List Char)
  | 0, _, _, _ => none
  | _ + 1, acc, seen, [] => if seen then some (acc, []) else none
  | f + 1, acc, seen, c :: rest =>
    if isDigitCh c then parseDigits f (acc * 10 + (c.toNat - 48)) true rest
    else if seen then some (acc, c :: rest) else none

/-- Parse the body of a JSON string literal after its opening quote,
handling the one-character escapes. -/
def parseStrBody : Nat → List Char → List Char → Option (String × List Char)
  | 0, _, _ => none
  | _ + 1, _, [] => none
  | f + 1, acc, c :: rest =>
    if c = '"' then some (String.mk acc.reverse, rest)
    else if c = '\\' then
      match rest with
      | [] => none
      | e :: rest2 =>
        let ec : Option Char :=
          if e = '"' then some '"' else if e = '\\' then some '\\'
          else if e = '/' then some '/' else if e = 'n' then some '\n'
          else if e = 't' then some '\t' else if e = 'r' then some '\r'
          else if e = 'b' then some (Char.ofNat 8) else if e = 'f' then some (Char.ofNat 12)
          else none
        match ec with
        | none => none
        | some c2 => parseStrBody f (c2 :: acc) rest2
    else parseStrBody f (c :: acc) rest

/-- Mode of the recursive-descent JSON parser: a value, the members of an
object, or the elements of an array. -/
inductive PMode where
  | val : PMode
  | objFirst (acc : List (String × Json)) : PMode
  | objNext (acc : List (String × Json)) : PMode
  | arrFirst (acc : List Json) : PMode
  | arrNext (acc : List Json) : PMode

/-- Fuel-indexed recursive-descent JSON parser over the value grammar
`json.loads` accepts (integer numerals; `\u` escapes unsupported). -/
def parseJson : Nat → PMode → List Char → Option (Json × List Char)
  | 0, _, _ => none
  | f + 1, PMode.val, l =>
    match skipWs l with
    | [] => none
    | c :: rest =>
      if c = '{' then parseJson f (PMode.objFirst []) rest
      else if c = '[' then parseJson f (PMode.arrFirst []) rest
      else if c = '"' then
        match parseStrBody (f + 1) [] rest with
        | some p => some (Json.str p.1, p.2)
        | none => none
      else if c = 't' then
        if rest.take 3 = ['r', 'u', 'e'] then some (Json.bool true, rest.drop 3) else none
      else if c = 'f' then
        if rest.take 4 = ['a', 'l', 's', 'e'] then some (Json.bool false, rest.drop 4) else none
      else if c = 'n' then
        if rest.take 3 = ['u', 'l', 'l'] then some (Json.null, rest.drop 3) else none
      else if c = '-' then
        match parseDigits (f + 1) 0 false rest with
        | some p => some (Json.num (-(p.1 : Int)), p.2)
        | none => none
      else if isDigitCh c then
        match parseDigits (f + 1) 0 false (c :: rest) with
        | some p => some (Json.num (p.1 : Int), p.2)
        | none => none
      else none
  | f + 1, PMode.objFirst acc, l =>
    match skipWs l with
    | '}' :: rest => some (Json.obj acc, rest)
    | l2 => parseJson f (PMode.objNext acc) l2
  | f + 1, PMode.objNext acc, l =>
    match skipWs l with
    | '"' :: rest =>
      match parseStrBody (f + 1) [] rest with
      | none => none
      | some (k, r1) =>
        match skipWs r1 with
        | ':' :: r2 =>
          match parseJson f PMode.val r2 with
          | none => none
          | some (v, r3) =>
            match skipWs r3 with
            | ',' :: r4 => parseJson f (PMode.objNext (jObjInsert acc k v)) r4
            | '}' :: r4 => some (Json.obj (jObjInsert acc k v), r4)
            | _ => none
        | _ => none
    | _ => none
  | f + 1, PMode.arrFirst acc, l =>
    match skipWs l with
    | ']' :: rest => some (Json.arr acc, rest)
    | l2 => parseJson f (PMode.arrNext acc) l2
  | f + 1, PMode.arrNext acc, l =>
    match parseJson f PMode.val l with
    | none => none
    | some (v, r1) =>
      match skipWs r1 with
      | ',' :: r2 => parseJson f (PMode.arrNext (acc ++ [v])) r2
      | ']' :: r2 => some (Json.arr (acc ++ [v]), r2)
      | _ => none

/-- Top-level `json.loads`: parse one value and require only whitespace
after it; `none` models a raised `JSONDecodeError`. -/
def json_loads (s : String) : Option Json :=
  match parseJson (2 * s.data.length + 8) PMode.val s.data with
  | some (v, rest) => if (skipWs rest).isEmpty then some v else none
  | none => none

/-! ### The request dispatcher (`HuobiSpotRestAPI.request`) -/

/-- Modelled from the spec: the fixed client identity string
`alpha.const.USER_AGENT` (the `alpha/const.py` module is not under
`src/`); its exact text is irrelevant to every claim, only that it is one
fixed string attached as the `User-Agent` header of every request. -/
def USER_AGENT : String := "AlphaQuant1.0.0_200910"

/-- UTC wall-clock instant at second precision, the data
`datetime.datetime.utcnow()` supplies to the dispatcher. -/
structure UtcTime where
  year : Nat
  month : Nat
  day : Nat
  hour : Nat
  minute : Nat
  second : Nat

/-- Zero-padding to two digits. -/
def pad2 (n : Nat) : String := if n < 10 then "0" ++ toString n else toString n

/-- Zero-padding to four digits. -/
def pad4 (n : Nat) : String :=
  if n < 10 then "000" ++ toString n
  else if n < 100 then "00" ++ toString n
  else if n < 1000 then "0" ++ toString n
  else toString n

/-- Timestamp format of the dispatcher,
`strftime("%Y-%m-%dT%H:%M:%S")`: ISO-8601-like, second precision, no
timezone suffix. -/
def formatTimestamp (t : UtcTime) : String :=
  pad4 t.year ++ "-" ++ pad2 t.month ++ "-" ++ pad2 t.day ++ "T" ++
    pad2 t.hour ++ ":" ++ pad2 t.minute ++ ":" ++ pad2 t.second

/-- URL resolution of `request`: an absolute `uri` is used verbatim, a
relative one is joined onto the configured host
(`urljoin(self._host, uri)`; the client only ever passes path-absolute
relative uris). -/
def resolveUrl (host uri : String) : String :=
  if isAbsUrl uri then uri else urljoinAbsPath host uri

/-- Auth augmentation of the query mapping, lines
`params.update({...})` of `request`: the access key, the two fixed
fields, and the formatted timestamp, assigned in the literal's order. -/
def authUpdate (accessKey timestamp : String) (params : Dict) : Dict :=
  dictUpdate params
    [("AccessKeyId", accessKey), ("SignatureMethod", "HmacSHA256"),
     ("SignatureVersion", "2"), ("Timestamp", timestamp)]

/-- Normalization `params = params if params else {}`: a missing or empty
mapping is replaced by a fresh empty one, any other mapping is used (and
later mutated) itself. -/
def normParams (params0 : Option Dict) : Dict :=
  match params0 with
  | none => []
  | some p => if p.isEmpty then [] else p

/-- Query mapping after the auth branch of `request`: normalize, merge
the four auth fields, then append `Signature`, computed by
`generate_signature` on the mapping as it stands before that final
assignment (the signature call receives the original `uri`, not the
joined url). -/
def signedParams (host accessKey secretKey method uri timestamp : String)
    (params0 : Option Dict) : Dict :=
  let p := authUpdate accessKey timestamp (normParams params0)
  dictInsert p "Signature" (generate_signature host secretKey method p uri)

/-- Transport invocation as `request` hands it to
`AsyncHttpRequests.fetch`: method, resolved url, query mapping (possibly
absent), optional body, headers, timeout. -/
structure FetchCall where
  method : String
  url : String
  params : Option Dict
  data : Option Json
  headers : Dict
  timeout : Nat

/-- Encoding selection of `request` (its transport-call half): `GET`
sends form content type, the query mapping, and no body; every other
method sends JSON `Accept`/`Content-type` headers and the body, and the
transport call is issued with the literal method `"POST"`. The
`User-Agent` header is set on both branches. `if not headers` replaces a
missing or empty header mapping with a fresh one. -/
def buildFetchCall (method url : String) (params : Option Dict) (body : Option Json)
    (headers0 : Option Dict) : FetchCall :=
  let headers := match headers0 with
    | none => []
    | some h => if h.isEmpty then [] else h
  if method == "GET" then
    { method := "GET", url := url, params := params, data := none,
      headers := dictInsert (dictInsert headers "Content-type"
        "application/x-www-form-urlencoded") "User-Agent" USER_AGENT,
      timeout := 10 }
  else
    { method := "POST", url := url, params := params, data := body,
      headers := dictInsert (dictInsert (dictInsert headers "Accept" "application/json")
        "Content-type" "application/json") "User-Agent" USER_AGENT,
      timeout := 10 }

/-- Pre-transport phase of `request`: resolve the url, augment and sign
the query mapping when `auth` is set, select the encoding, and produce
the transport invocation. The wall clock read by `utcnow()` is the
explicit `now` argument. -/
def requestPre (host accessKey secretKey : String) (method uri : String)
    (params0 : Option Dict) (body : Option Json) (headers0 : Option Dict)
    (auth : Bool) (now : UtcTime) : FetchCall :=
  let url := resolveUrl host uri
  let params :=
    if auth then
      some (signedParams host accessKey secretKey method uri (formatTimestamp now) params0)
    else params0
  buildFetchCall method url params body headers0

/-- Value of the caller's own `params` object after `request` returns,
per Python aliasing: `params = params if params else {}` rebinds to a
fresh dictionary exactly when the caller's mapping is missing or empty,
so only a non-empty caller mapping is mutated in place by the
`update` and `Signature` assignments. -/
def callerParamsAfter (host accessKey secretKey method uri timestamp : String)
    (params0 : Option Dict) (auth : Bool) : Option Dict :=
  if auth then
    match params0 with
    | none => none
    | some p =>
      if p.isEmpty then some p
      else some (signedParams host accessKey secretKey method uri timestamp (some p))
  else params0

/-- Response body as the transport yields it: either a raw string or an
already structured value (the `isinstance(success, dict)` distinction). -/
inductive Body where
  | raw (s : String) : Body
  | dict (fields : List (String × Json)) : Body

/-- Status test `result.get("status") != "ok"`, negated: a Python `!=`
between a JSON value and the string `"ok"` holds exactly when the value
is absent or not that string. -/
def statusOk (fields : List (String × Json)) : Bool :=
  match jObjGet fields "status" with
  | some (Json.str s) => s == "ok"
  | _ => false

/-- Envelope extraction `result = json.loads(success) if not
isinstance(success, dict) else success`: a raw body is parsed, a dict
body is used as is; `none` models a raised `JSONDecodeError`. -/
def parsedEnvelope (success : Body) : Option Json :=
  match success with
  | Body.dict fs => some (Json.obj fs)
  | Body.raw s => json_loads s

/-- Post-transport phase of `request`, lines 588-596: a reported
transport error is returned as `(None, error)`; otherwise the parsed
envelope is returned as `(envelope, None)` when its status is `"ok"`,
as `(None, envelope)` otherwise. The outer `Option` is `none` where the
Python raises instead of returning: a raw body `json.loads` rejects, or
a parsed body that is not an object (no `.get`). -/
def requestOutcome (error : Option Json) (success : Body) :
    Option (Option Json × Option Json) :=
  match error with
  | some e => some (none, some e)
  | none =>
    match parsedEnvelope success with
    | none => none
    | some r =>
      match r with
      | Json.obj fs => if statusOk fs then some (some r, none) else some (none, some r)
      | _ => none

/-! ### Spec-side definitions for the refinement claims -/

/-- First-match lookup in a string dictionary. -/
def dictGet (d : Dict) (k : String) : Option String :=
  match d with
  | [] => none
  | p :: ps => if p.1 = k then some p.2 else dictGet ps k

/-- ASCII upper-casing of a string. -/
def strUpper (s : String) : String := String.mk (s.data.map Char.toUpper)

/-- Written from the words of claim C1: the base64 encoding of the
HMAC-SHA256 digest, keyed by the UTF-8 bytes of the secret key, of the
UTF-8 bytes of the canonical payload joining with newline separators the
HTTP method upper-cased, the hostname, the path, and the form-encoded
sorted query string. The hostname of a relative-path call is the
configured host's. -/
def claimC1Signature (host secret_key method : String)
    (params : List (String × String)) (path : String) : String :=
  b64encode (hmacSha256 (utf8 secret_key)
    (utf8 (String.intercalate "\n"
      [strUpper method, strLower (urlparseHostname host), path, urlencode (sortParams params)])))

/-- Claim C1 as amended: identical, except that the method is signed
exactly as given, not upper-cased. -/
def claimC1SignatureAmended (host secret_key method : String)
    (params : List (String × String)) (path : String) : String :=
  b64encode (hmacSha256 (utf8 secret_key)
    (utf8 (String.intercalate "\n"
      [method, strLower (urlparseHostname host), path, urlencode (sortParams params)])))

/-- Strict key comparison on pairs, used to show sorted key-distinct
mappings are unique. -/
def keyLT (p q : String × String) : Prop := charListLT p.1.data q.1.data = true

set_option maxRecDepth 20000

/-! ### Order lemmas for the key comparison -/

theorem charListLT_nil_right (a : List Char) : charListLT a [] = false := by
  cases a <;> rfl

theorem charListLT_irrefl (l : List Char) : charListLT l l = false := by
  induction l with
  | nil => rfl
  | cons a as ih => simp [charListLT, ih]

theorem charListLT_asymm : ∀ {a b : List Char},
    charListLT a b = true → charListLT b a = false := by
  intro a
  induction a with
  | nil =>
    intro b h
    cases b with
    | nil => simp [charListLT] at h
    | cons y ys => simp [charListLT]
  | cons x xs ih =>
    intro b h
    cases b with
    | nil => simp [charListLT] at h
    | cons y ys =>
      simp only [charListLT] at h ⊢
      rcases lt_trichotomy x y with h1 | h1 | h1
      · simp [h1, asymm h1]
      · subst h1
        simp only [lt_irrefl, if_false] at h ⊢
        exact ih h
      · simp [h1, asymm h1] at h

theorem charListLT_trans : ∀ {a b c : List Char},
    charListLT a b = true → charListLT b c = true → charListLT a c = true := by
  intro a
  induction a with
  | nil =>
    intro b c h1 h2
    cases c with
    | nil => rw [charListLT_nil_right] at h2; exact absurd h2 (by simp)
    | cons z zs => rfl
  | cons x xs ih =>
    intro b c h1 h2
    cases b with
    | nil => simp [charListLT] at h1
    | cons y ys =>
      cases c with
      | nil => rw [charListLT_nil_right] at h2; exact absurd h2 (by simp)
      | cons z zs =>
        simp only [charListLT] at h1 h2 ⊢
        rcases lt_trichotomy x y with hxy | hxy | hxy
        · rcases lt_trichotomy y z with hyz | hyz | hyz
          · simp [lt_trans hxy hyz]
          · subst hyz; simp [hxy]
          · simp [hyz, asymm hyz] at h2
        · subst hxy
          rcases lt_trichotomy x z with hyz | hyz | hyz
          · simp [hyz]
          · subst hyz
            simp only [lt_irrefl, if_false] at h1 h2 ⊢
            exact ih h1 h2
          · simp [hyz, asymm hyz] at h2
        · simp [hxy, asymm hxy] at h1

theorem charListLT_trichot : ∀ a b : List Char,
    charListLT a b = true ∨ a = b ∨ charListLT b a = true := by
  intro a
  induction a with
  | nil =>
    intro b
    cases b with
    | nil => exact Or.inr (Or.inl rfl)
    | cons y ys => exact Or.inl rfl
  | cons x xs ih =>
    intro b
    cases b with
    | nil => exact Or.inr (Or.inr rfl)
    | cons y ys =>
      rcases lt_trichotomy x y with h | h | h
      · exact Or.inl (by simp [charListLT, h])
      · subst h
        rcases ih ys with h2 | h2 | h2
        · exact Or.inl (by simp [charListLT, h2])
        · exact Or.inr (Or.inl (by rw [h2]))
        · exact Or.inr (Or.inr (by simp [charListLT, h2]))
      · exact Or.inr (Or.inr (by simp [charListLT, h]))

theorem strLE_total (a b : String) : strLE a b = true ∨ strLE b a = true := by
  by_cases h : charListLT b.data a.data = true
  · right
    simp [strLE, charListLT_asymm h]
  · left
    simp [strLE]
    simpa using h

theorem strLE_trans {a b c : String} (h1 : strLE a b = true) (h2 : strLE b c = true) :
    strLE a c = true := by
  simp only [strLE, Bool.not_eq_true'] at h1 h2 ⊢
  by_cases h : charListLT c.data a.data = true
  · rcases charListLT_trichot c.data b.data with h3 | h3 | h3
    · rw [h3] at h2; simp at h2
    · rw [h3] at h; rw [h] at h1; simp at h1
    · have h4 := charListLT_trans h3 h
      rw [h4] at h1; simp at h1
  · simpa using h

theorem keyLT_of_keyLE_of_ne {p q : String × String} (hle : keyLE p q)
    (hne : p.1 ≠ q.1) : keyLT p q := by
  rcases charListLT_trichot p.1.data q.1.data with h | h | h
  · exact h
  · exact absurd (String.ext h) hne
  · rw [keyLE, strLE, h] at hle
    exact absurd hle (by simp)

/-- Sorting a key-distinct mapping is order-insensitive: two mappings
with the same entries sort identically. -/
theorem sortParams_eq_of_perm {ps qs : List (String × String)} (hperm : ps.Perm qs)
    (hnd : (ps.map Prod.fst).Nodup) : sortParams ps = sortParams qs := by
  haveI : IsTotal (String × String) keyLE := ⟨fun p q => strLE_total p.1 q.1⟩
  haveI : IsTrans (String × String) keyLE := ⟨fun _ _ _ h1 h2 => strLE_trans h1 h2⟩
  haveI : IsAntisymm (String × String) keyLT :=
    ⟨fun p q h1 h2 => absurd h2 (by rw [keyLT, charListLT_asymm h1]; simp)⟩
  have hsymm : ∀ {p q : String × String}, p.1 ≠ q.1 → q.1 ≠ p.1 :=
    fun h => Ne.symm h
  have hndq : (qs.map Prod.fst).Nodup := ((hperm.map Prod.fst).nodup_iff).mp hnd
  have hpairP : ps.Pairwise (fun p q => p.1 ≠ q.1) := List.pairwise_map.mp hnd
  have hpairQ : qs.Pairwise (fun p q => p.1 ≠ q.1) := List.pairwise_map.mp hndq
  have hp1 : (sortParams ps).Perm ps := List.perm_insertionSort keyLE ps
  have hq1 : (sortParams qs).Perm qs := List.perm_insertionSort keyLE qs
  have hpairP2 : (sortParams ps).Pairwise (fun p q => p.1 ≠ q.1) :=
    (hp1.pairwise_iff hsymm).mpr hpairP
  have hpairQ2 : (sortParams qs).Pairwise (fun p q => p.1 ≠ q.1) :=
    (hq1.pairwise_iff hsymm).mpr hpairQ
  have hsortP : List.Sorted keyLT (sortParams ps) :=
    ((List.sorted_insertionSort keyLE ps).and hpairP2).imp
      (fun h => keyLT_of_keyLE_of_ne h.1 h.2)
  have hsortQ : List.Sorted keyLT (sortParams qs) :=
    ((List.sorted_insertionSort keyLE qs).and hpairQ2).imp
      (fun h => keyLT_of_keyLE_of_ne h.1 h.2)
  exact List.eq_of_perm_of_sorted (hp1.trans (hperm.trans hq1.symm)) hsortP hsortQ

/-! ### Dictionary lemmas -/

theorem hasKey_append (d e : Dict) (k : String) :
    hasKey (d ++ e) k = (hasKey d k || hasKey e k) := by
  induction d with
  | nil => simp [hasKey]
  | cons p ps ih =>
    by_cases hp : p.1 = k
    · simp [hasKey, hp]
    · simp [hasKey, hp, ih]

theorem hasKey_map_replace (k v k2 : String) : ∀ d : Dict,
    hasKey (d.map (fun p => if p.1 = k then (p.1, v) else p)) k2 = hasKey d k2 := by
  intro d
  induction d with
  | nil => rfl
  | cons p ps ih =>
    by_cases hp : p.1 = k
    · simp [hasKey, hp, ih]
    · simp [hasKey, hp, ih]

theorem hasKey_dictInsert (d : Dict) (k v k2 : String) :
    hasKey (dictInsert d k v) k2 = (hasKey d k2 || decide (k = k2)) := by
  by_cases hk : hasKey d k = true
  · simp only [dictInsert, hk, if_true, hasKey_map_replace]
    by_cases hkk : k = k2
    · subst hkk
      simp [hk]
    · simp [hkk]
  · simp only [dictInsert, hk, if_false]
    by_cases hkk : k = k2
    · simp [hasKey_append, hasKey, hkk]
    · simp [hasKey_append, hasKey, hkk]

theorem dictGet_map_self (k v : String) : ∀ d : Dict, hasKey d k = true →
    dictGet (d.map (fun p => if p.1 = k then (p.1, v) else p)) k = some v := by
  intro d
  induction d with
  | nil => intro h; simp [hasKey] at h
  | cons p ps ih =>
    intro h
    by_cases hp : p.1 = k
    · simp [dictGet, hp]
    · have h2 : hasKey ps k = true := by simpa [hasKey, hp] using h
      simp [dictGet, hp, ih h2]

theorem dictGet_map_ne (k v k2 : String) (hkk : ¬ k = k2) : ∀ d : Dict,
    dictGet (d.map (fun p => if p.1 = k then (p.1, v) else p)) k2 = dictGet d k2 := by
  intro d
  induction d with
  | nil => rfl
  | cons p ps ih =>
    by_cases hp : p.1 = k
    · have hne : ¬ p.1 = k2 := by rw [hp]; exact hkk
      simp [dictGet, hp, hne, hkk, ih]
    · simp [dictGet, hp, ih]

theorem dictGet_append (d e : Dict) (k : String) :
    dictGet (d ++ e) k = match dictGet d k with
      | some v => some v
      | none => dictGet e k := by
  induction d with
  | nil => simp [dictGet]
  | cons p ps ih =>
    by_cases hp : p.1 = k
    · simp [dictGet, hp]
    · simp [dictGet, hp, ih]

theorem dictGet_none_of_hasKey_false (k : String) : ∀ d : Dict,
    hasKey d k = false → dictGet d k = none := by
  intro d
  induction d with
  | nil => intro _; rfl
  | cons p ps ih =>
    intro h
    by_cases hp : p.1 = k
    · simp [hasKey, hp] at h
    · have hps : hasKey ps k = false := by simpa [hasKey, hp] using h
      simp [dictGet, hp, ih hps]

theorem dictGet_dictInsert (d : Dict) (k v k2 : String) :
    dictGet (dictInsert d k v) k2 = if k = k2 then some v else dictGet d k2 := by
  by_cases hkk : k = k2
  · subst hkk
    by_cases hk : hasKey d k = true
    · simp [dictInsert, hk, dictGet_map_self k v d hk]
    · rw [dictInsert, if_neg (by simpa using hk)]
      rw [dictGet_append, dictGet_none_of_hasKey_false k d (by simpa using hk)]
      simp [dictGet]
  · by_cases hk : hasKey d k = true
    · simp [dictInsert, hk, dictGet_map_ne k v k2 hkk, hkk]
    · rw [dictInsert, if_neg (by simpa using hk)]
      rw [dictGet_append]
      have h1 : dictGet [(k, v)] k2 = none := by simp [dictGet, hkk]
      rw [h1, if_neg hkk]
      cases dictGet d k2 <;> simp

/-! ### Further helper lemmas -/

theorem normParams_some (p : Dict) : normParams (some p) = p := by
  cases p <;> simp [normParams]

theorem dictInsert_append_of_not_hasKey (d : Dict) (k v : String)
    (h : hasKey d k = false) : dictInsert d k v = d ++ [(k, v)] := by
  rw [dictInsert, if_neg (by simp [h])]

theorem buildFetchCall_params (method url : String) (params : Option Dict)
    (body : Option Json) (headers0 : Option Dict) :
    (buildFetchCall method url params body headers0).params = params := by
  by_cases hm : method == "GET" <;> simp [buildFetchCall, hm]

theorem buildFetchCall_url (method url : String) (params : Option Dict)
    (body : Option Json) (headers0 : Option Dict) :
    (buildFetchCall method url params body headers0).url = url := by
  by_cases hm : method == "GET" <;> simp [buildFetchCall, hm]

theorem splitChar_ne_nil (c : Char) (l : List Char) : splitChar c l ≠ [] := by
  cases l with
  | nil => simp [splitChar]
  | cons x xs =>
    rw [splitChar]
    rcases h : splitChar c xs with _ | ⟨y, ys⟩
    · by_cases hx : x = c <;> simp [hx]
    · by_cases hx : x = c <;> simp [hx]

theorem splitChar_cons_sep (c : Char) (ys : List Char) :
    splitChar c (c :: ys) = [] :: splitChar c ys := by
  rw [splitChar]
  rcases h : splitChar c ys with _ | ⟨y, ysp⟩
  · simp
  · simp

theorem splitChar_cons_ne (c x : Char) (xs : List Char) (hx : ¬ x = c) :
    splitChar c (x :: xs) = match splitChar c xs with
      | [] => [[x]]
      | y :: ys => (x :: y) :: ys := by
  rw [splitChar]
  rcases h : splitChar c xs with _ | ⟨y, ysp⟩ <;> simp [hx]

theorem splitChar_no_sep_append (c : Char) : ∀ (xs ys : List Char),
    (∀ x ∈ xs, ¬ x = c) → splitChar c (xs ++ c :: ys) = xs :: splitChar c ys := by
  intro xs
  induction xs with
  | nil => intro ys _; simpa using splitChar_cons_sep c ys
  | cons x xs ih =>
    intro ys h
    have hx : ¬ x = c := h x (by simp)
    have hxs : ∀ a ∈ xs, ¬ a = c := fun a ha => h a (by simp [ha])
    rw [List.cons_append, splitChar_cons_ne c x _ hx, ih ys hxs]

theorem joinChar_single (c : Char) (y : List Char) : joinChar c [y] = y := rfl

theorem joinChar_cons_cons (c : Char) (y z : List Char) (zs : List (List Char)) :
    joinChar c (y :: z :: zs) = y ++ c :: joinChar c (z :: zs) := rfl

theorem joinChar_splitChar (c : Char) : ∀ l : List Char,
    joinChar c (splitChar c l) = l := by
  intro l
  induction l with
  | nil => rfl
  | cons x xs ih =>
    by_cases hx : x = c
    · subst hx
      rw [splitChar_cons_sep]
      rcases h : splitChar x xs with _ | ⟨y, ys⟩
      · exact absurd h (splitChar_ne_nil x xs)
      · rw [joinChar_cons_cons, ← h, ih]
        rfl
    · rw [splitChar_cons_ne c x xs hx]
      rcases h : splitChar c xs with _ | ⟨y, ys⟩
      · exact absurd h (splitChar_ne_nil c xs)
      · have ih2 : joinChar c (y :: ys) = xs := by rw [← h, ih]
        cases ys with
        | nil =>
          rw [joinChar_single] at ih2
          rw [joinChar_single, ih2]
        | cons z zs =>
          rw [joinChar_cons_cons] at ih2
          rw [joinChar_cons_cons, List.cons_append, ih2]

theorem dropWhile_append_of_all (p : Char → Bool) : ∀ (xs ys : List Char),
    (∀ x ∈ xs, p x = true) → (xs ++ ys).dropWhile p = ys.dropWhile p := by
  intro xs
  induction xs with
  | nil => intro ys _; rfl
  | cons x xs ih =>
    intro ys h
    have hx : p x = true := h x (by simp)
    rw [List.cons_append, List.dropWhile_cons, if_pos hx, ih ys (fun a ha => h a (by simp [ha]))]

/-! ### Claim theorems -/

/-- C8: the signature engine is deterministic — two invocations with
componentwise identical inputs (method, query mapping with any timestamp
entry it carries, request path, configured host, secret key) return
identical signatures; the Lean embedding is a pure function of exactly
these inputs, with no clock or randomness source. -/
theorem generate_signature_deterministic
    (host1 host2 sk1 sk2 m1 m2 path1 path2 : String)
    (ps1 ps2 : List (String × String))
    (hh : host1 = host2) (hs : sk1 = sk2) (hm : m1 = m2)
    (hp : ps1 = ps2) (hpath : path1 = path2) :
    generate_signature host1 sk1 m1 ps1 path1 =
      generate_signature host2 sk2 m2 ps2 path2 := by
  subst hh; subst hs; subst hm; subst hp; subst hpath; rfl

theorem generate_signature_deterministic_witness :
    generate_signature "https://api.huobi.pro" "sk" "GET"
        [("Timestamp", "2020-09-10T12:00:00")] "/market/depth" =
      generate_signature "https://api.huobi.pro" "sk" "GET"
        [("Timestamp", "2020-09-10T12:00:00")] "/market/depth" :=
  generate_signature_deterministic _ _ _ _ _ _ _ _ _ _ rfl rfl rfl rfl rfl

/-- C1 (amended): for a relative request path, `generate_signature`
returns the base64 encoding of the HMAC-SHA256 digest, keyed by the
UTF-8 secret key, of the UTF-8 canonical payload joining with newline
separators the HTTP method exactly as given (NOT upper-cased — the
correction), the configured host's lower-cased hostname, the path, and
the form-encoded sorted query string. -/
theorem generate_signature_matches_spec_modulo_case
    (host secret_key method : String) (params : List (String × String))
    (path : String) (h : isAbsUrl path = false) :
    generate_signature host secret_key method params path =
      claimC1SignatureAmended host secret_key method params path := by
  simp [generate_signature, claimC1SignatureAmended, signPayload, sigHostAndPath, h]

theorem generate_signature_matches_spec_modulo_case_witness :
    isAbsUrl "/market/depth" = false ∧
      generate_signature "https://api.huobi.pro" "secretK" "GET"
          [("symbol", "btcusdt")] "/market/depth" =
        claimC1SignatureAmended "https://api.huobi.pro" "secretK" "GET"
          [("symbol", "btcusdt")] "/market/depth" :=
  ⟨by decide,
   generate_signature_matches_spec_modulo_case "https://api.huobi.pro" "secretK" "GET"
     [("symbol", "btcusdt")] "/market/depth" (by decide)⟩

/-- C1 (counterexample): the claim says the method is upper-cased before
signing; the code signs the method string verbatim, so for the
lower-case method `"get"` the returned signature differs from the
claimed value. -/
theorem generate_signature_method_not_uppercased :
    generate_signature "https://api.huobi.pro" "secretK" "get" [] "/a" ≠
      claimC1Signature "https://api.huobi.pro" "secretK" "get" [] "/a" := by
  decide

/-- C7: two query mappings with the same key-value pairs in different
orders (a permutation, keys unique) produce the same signature, because
the engine sorts the mapping by key before canonicalization. -/
theorem generate_signature_perm_invariant (host sk m path : String)
    {ps qs : List (String × String)} (hperm : ps.Perm qs)
    (hnd : (ps.map Prod.fst).Nodup) :
    generate_signature host sk m ps path = generate_signature host sk m qs path := by
  unfold generate_signature signPayload
  rw [sortParams_eq_of_perm hperm hnd]

theorem generate_signature_perm_invariant_witness :
    generate_signature "https://api.huobi.pro" "sk" "GET"
        [("type", "step0"), ("symbol", "btcusdt")] "/market/depth" =
      generate_signature "https://api.huobi.pro" "sk" "GET"
        [("symbol", "btcusdt"), ("type", "step0")] "/market/depth" :=
  generate_signature_perm_invariant "https://api.huobi.pro" "sk" "GET" "/market/depth"
    (List.Perm.swap ("symbol", "btcusdt") ("type", "step0") []) (by decide)

/-- C3 (counterexample): the claim says re-signing after removing a
`Signature` placeholder reproduces the same signature; in fact
`generate_signature` canonicalizes every entry of the mapping it is
given, a `Signature` placeholder included, so the two signatures
differ. -/
theorem signature_placeholder_changes_signature :
    generate_signature "https://api.huobi.pro" "sk" "GET" [("Signature", "x")] "/a" ≠
      generate_signature "https://api.huobi.pro" "sk" "GET" [] "/a" := by
  decide

/-- C3 (amended): within `request`'s auth flow the signed string never
covers `Signature` — the value stored under `Signature` is computed by
the engine on the mapping as it stands before the `Signature` entry is
appended, and that mapping carries no `Signature` key (provided the
caller's mapping carried none). -/
theorem signature_excluded_from_signed_mapping
    (host ak sk method uri ts : String) (params0 : Option Dict)
    (h : hasKey (normParams params0) "Signature" = false) :
    hasKey (authUpdate ak ts (normParams params0)) "Signature" = false ∧
    signedParams host ak sk method uri ts params0 =
      authUpdate ak ts (normParams params0) ++
        [("Signature",
          generate_signature host sk method (authUpdate ak ts (normParams params0)) uri)] := by
  have h1 : hasKey (authUpdate ak ts (normParams params0)) "Signature" = false := by
    simp only [authUpdate, dictUpdate, List.foldl_cons, List.foldl_nil, hasKey_dictInsert, h]
    decide
  refine ⟨h1, ?_⟩
  rw [signedParams]
  exact dictInsert_append_of_not_hasKey _ _ _ h1

theorem signature_excluded_from_signed_mapping_witness :
    hasKey (normParams (some [("account-id", "spot")])) "Signature" = false ∧
    hasKey (authUpdate "ak" "2020-09-10T12:00:00"
        (normParams (some [("account-id", "spot")]))) "Signature" = false ∧
    signedParams "https://api.huobi.pro" "ak" "sk" "POST" "/v1/order/orders/place"
        "2020-09-10T12:00:00" (some [("account-id", "spot")]) =
      authUpdate "ak" "2020-09-10T12:00:00" (normParams (some [("account-id", "spot")])) ++
        [("Signature",
          generate_signature "https://api.huobi.pro" "sk" "POST"
            (authUpdate "ak" "2020-09-10T12:00:00"
              (normParams (some [("account-id", "spot")]))) "/v1/order/orders/place")] :=
  ⟨by decide,
   (signature_excluded_from_signed_mapping "https://api.huobi.pro" "ak" "sk" "POST"
      "/v1/order/orders/place" "2020-09-10T12:00:00" (some [("account-id", "spot")])
      (by decide)).1,
   (signature_excluded_from_signed_mapping "https://api.huobi.pro" "ak" "sk" "POST"
      "/v1/order/orders/place" "2020-09-10T12:00:00" (some [("account-id", "spot")])
      (by decide)).2⟩

/-- C2: an authenticated `request` augments the query mapping, before
the transport call, with exactly the keys `AccessKeyId` (the client's
access key), `SignatureMethod` (fixed `"HmacSHA256"`),
`SignatureVersion` (fixed `"2"`), `Timestamp` (the current UTC wall
clock at second precision, ISO-8601-like, no timezone suffix) and
`Signature`; the engine is invoked on the mapping already carrying the
timestamp and the three fixed fields, and `Signature` is the very last
entry appended. The hypotheses say the caller's mapping does not carry
any of the five keys already. -/
theorem request_auth_augmentation (host ak sk method uri : String) (params : Dict)
    (body : Option Json) (headers0 : Option Dict) (now : UtcTime)
    (h1 : hasKey params "AccessKeyId" = false)
    (h2 : hasKey params "SignatureMethod" = false)
    (h3 : hasKey params "SignatureVersion" = false)
    (h4 : hasKey params "Timestamp" = false)
    (h5 : hasKey params "Signature" = false) :
    (requestPre host ak sk method uri (some params) body headers0 true now).params =
      some (params ++
        [("AccessKeyId", ak), ("SignatureMethod", "HmacSHA256"),
         ("SignatureVersion", "2"), ("Timestamp", formatTimestamp now),
         ("Signature",
           generate_signature host sk method
             (params ++
               [("AccessKeyId", ak), ("SignatureMethod", "HmacSHA256"),
                ("SignatureVersion", "2"), ("Timestamp", formatTimestamp now)]) uri)]) := by
  have e0 : authUpdate ak (formatTimestamp now) params =
      params ++ [("AccessKeyId", ak), ("SignatureMethod", "HmacSHA256"),
        ("SignatureVersion", "2"), ("Timestamp", formatTimestamp now)] := by
    have k2 : hasKey (params ++ [("AccessKeyId", ak)]) "SignatureMethod" = false := by
      simp [hasKey_append, hasKey, h2]
    have k3 : hasKey ((params ++ [("AccessKeyId", ak)]) ++ [("SignatureMethod", "HmacSHA256")])
        "SignatureVersion" = false := by
      simp [hasKey_append, hasKey, h3]
    have k4 : hasKey (((params ++ [("AccessKeyId", ak)]) ++ [("SignatureMethod", "HmacSHA256")])
        ++ [("SignatureVersion", "2")]) "Timestamp" = false := by
      simp [hasKey_append, hasKey, h4]
    rw [authUpdate, dictUpdate]
    simp only [List.foldl_cons, List.foldl_nil]
    rw [dictInsert_append_of_not_hasKey _ _ _ h1]
    rw [dictInsert_append_of_not_hasKey _ _ _ k2]
    rw [dictInsert_append_of_not_hasKey _ _ _ k3]
    rw [dictInsert_append_of_not_hasKey _ _ _ k4]
    simp
  have hSig : hasKey (params ++ [("AccessKeyId", ak), ("SignatureMethod", "HmacSHA256"),
      ("SignatureVersion", "2"), ("Timestamp", formatTimestamp now)]) "Signature" = false := by
    simp [hasKey_append, hasKey, h5]
  simp only [requestPre, if_true]
  rw [buildFetchCall_params]
  simp only [signedParams, normParams_some, e0]
  rw [dictInsert_append_of_not_hasKey _ _ _ hSig]
  simp

theorem request_auth_augmentation_witness :
    hasKey [("account-id", "spot")] "AccessKeyId" = false ∧
    hasKey [("account-id", "spot")] "Signature" = false ∧
    (requestPre "https://api.huobi.pro" "ak" "sk" "POST" "/v1/order/orders/place"
        (some [("account-id", "spot")]) none none true ⟨2020, 9, 10, 12, 0, 0⟩).params =
      some ([("account-id", "spot")] ++
        [("AccessKeyId", "ak"), ("SignatureMethod", "HmacSHA256"),
         ("SignatureVersion", "2"),
         ("Timestamp", formatTimestamp ⟨2020, 9, 10, 12, 0, 0⟩),
         ("Signature",
           generate_signature "https://api.huobi.pro" "sk" "POST"
             ([("account-id", "spot")] ++
               [("AccessKeyId", "ak"), ("SignatureMethod", "HmacSHA256"),
                ("SignatureVersion", "2"),
                ("Timestamp", formatTimestamp ⟨2020, 9, 10, 12, 0, 0⟩)])
             "/v1/order/orders/place")]) :=
  ⟨by decide, by decide,
   request_auth_augmentation "https://api.huobi.pro" "ak" "sk" "POST"
     "/v1/order/orders/place" [("account-id", "spot")] none none ⟨2020, 9, 10, 12, 0, 0⟩
     (by decide) (by decide) (by decide) (by decide) (by decide)⟩

/-- C5 (counterexample): the claim says the transport call is issued
with the same method for every method in GET, POST, PUT, DELETE; for
`PUT` the code hands the transport the literal method `"POST"`. -/
theorem request_put_issued_as_post :
    (requestPre "https://api.huobi.pro" "ak" "sk" "PUT" "/v1/x" none none none false
        ⟨2020, 9, 10, 12, 0, 0⟩).method ≠ "PUT" := by
  decide

/-- C5 (amended): `request` selects the encoding by method — `GET` keeps
method `GET`, sets `Content-type: application/x-www-form-urlencoded`,
passes the query mapping to the transport and sends no body; every
non-GET method is issued to the transport as `"POST"` (the correction:
PUT and DELETE are not preserved), sets `Accept` and `Content-type` to
`application/json` and sends the body; the fixed `User-Agent` identity
header is attached in both cases. -/
theorem request_encoding_by_method (method url : String) (params : Option Dict)
    (body : Option Json) (headers0 : Option Dict) :
    dictGet (buildFetchCall method url params body headers0).headers "User-Agent" =
      some USER_AGENT ∧
    (method = "GET" →
      (buildFetchCall method url params body headers0).method = "GET" ∧
      (buildFetchCall method url params body headers0).data = none ∧
      (buildFetchCall method url params body headers0).params = params ∧
      dictGet (buildFetchCall method url params body headers0).headers "Content-type" =
        some "application/x-www-form-urlencoded") ∧
    (¬ method = "GET" →
      (buildFetchCall method url params body headers0).method = "POST" ∧
      (buildFetchCall method url params body headers0).data = body ∧
      (buildFetchCall method url params body headers0).params = params ∧
      dictGet (buildFetchCall method url params body headers0).headers "Accept" =
        some "application/json" ∧
      dictGet (buildFetchCall method url params body headers0).headers "Content-type" =
        some "application/json") := by
  by_cases hm : method = "GET"
  · refine ⟨?_, fun _ => ⟨?_, ?_, ?_, ?_⟩, fun hc => absurd hm hc⟩ <;>
      simp [buildFetchCall, hm, dictGet_dictInsert]
  · have hm2 : (method == "GET") = false := by
      simp [hm]
    refine ⟨?_, fun hc => absurd hc hm, fun _ => ⟨?_, ?_, ?_, ?_, ?_⟩⟩ <;>
      simp [buildFetchCall, hm2, dictGet_dictInsert]

theorem request_encoding_by_method_witness :
    dictGet (buildFetchCall "GET" "https://api.huobi.pro/market/depth"
        (some [("symbol", "btcusdt")]) none none).headers "User-Agent" = some USER_AGENT ∧
    (buildFetchCall "GET" "https://api.huobi.pro/market/depth"
        (some [("symbol", "btcusdt")]) none none).data = none ∧
    (buildFetchCall "DELETE" "https://api.huobi.pro/v1/x" none
        (some (Json.obj [("order-id", Json.str "1")])) none).method = "POST" ∧
    dictGet (buildFetchCall "DELETE" "https://api.huobi.pro/v1/x" none
        (some (Json.obj [("order-id", Json.str "1")])) none).headers "Content-type" =
      some "application/json" :=
  ⟨(request_encoding_by_method "GET" "https://api.huobi.pro/market/depth"
      (some [("symbol", "btcusdt")]) none none).1,
   ((request_encoding_by_method "GET" "https://api.huobi.pro/market/depth"
      (some [("symbol", "btcusdt")]) none none).2.1 rfl).2.1,
   ((request_encoding_by_method "DELETE" "https://api.huobi.pro/v1/x" none
      (some (Json.obj [("order-id", Json.str "1")])) none).2.2 (by decide)).1,
   ((request_encoding_by_method "DELETE" "https://api.huobi.pro/v1/x" none
      (some (Json.obj [("order-id", Json.str "1")])) none).2.2 (by decide)).2.2.2.2⟩

/-- C9 (the code lacks the claimed check): an authenticated request with
unconfigured, empty credentials is not rejected before the network — the
dispatcher signs with the empty access and secret keys and still
produces a complete transport invocation carrying a `Signature`
parameter. -/
theorem request_no_credential_check :
    ((requestPre "https://api.huobi.pro" "" "" "GET" "/v1/order/openOrders" none none none
        true ⟨2020, 9, 10, 12, 0, 0⟩).params.map (fun d => hasKey d "Signature")
      = some true) ∧
    (requestPre "https://api.huobi.pro" "" "" "GET" "/v1/order/openOrders" none none none
        true ⟨2020, 9, 10, 12, 0, 0⟩).method = "GET" := by
  decide

/-- C10: an authenticated call mutates a non-empty caller-supplied
mapping in place — after the call the caller's object holds the five
added auth keys; an absent or empty mapping is replaced by a freshly
constructed dictionary and the caller's object is left unchanged. -/
theorem request_mutates_caller_params (host ak sk method uri ts : String) (p : Dict) :
    (p ≠ [] →
      callerParamsAfter host ak sk method uri ts (some p) true =
        some (signedParams host ak sk method uri ts (some p)) ∧
      hasKey (signedParams host ak sk method uri ts (some p)) "AccessKeyId" = true ∧
      hasKey (signedParams host ak sk method uri ts (some p)) "SignatureMethod" = true ∧
      hasKey (signedParams host ak sk method uri ts (some p)) "SignatureVersion" = true ∧
      hasKey (signedParams host ak sk method uri ts (some p)) "Timestamp" = true ∧
      hasKey (signedParams host ak sk method uri ts (some p)) "Signature" = true) ∧
    callerParamsAfter host ak sk method uri ts (some []) true = some [] ∧
    callerParamsAfter host ak sk method uri ts none true = none := by
  refine ⟨?_, by simp [callerParamsAfter], by simp [callerParamsAfter]⟩
  intro hp
  have hne : p.isEmpty = false := by
    cases p with
    | nil => exact absurd rfl hp
    | cons a as => rfl
  refine ⟨by simp [callerParamsAfter, hne], ?_, ?_, ?_, ?_, ?_⟩ <;>
    simp [signedParams, authUpdate, dictUpdate, hasKey_dictInsert]

theorem request_mutates_caller_params_witness :
    [("symbol", "btcusdt")] ≠ ([] : Dict) ∧
    callerParamsAfter "https://api.huobi.pro" "ak" "sk" "GET" "/v1/x"
        "2020-09-10T12:00:00" (some [("symbol", "btcusdt")]) true =
      some (signedParams "https://api.huobi.pro" "ak" "sk" "GET" "/v1/x"
        "2020-09-10T12:00:00" (some [("symbol", "btcusdt")])) ∧
    hasKey (signedParams "https://api.huobi.pro" "ak" "sk" "GET" "/v1/x"
        "2020-09-10T12:00:00" (some [("symbol", "btcusdt")])) "Signature" = true :=
  ⟨by decide,
   ((request_mutates_caller_params "https://api.huobi.pro" "ak" "sk" "GET" "/v1/x"
      "2020-09-10T12:00:00" [("symbol", "btcusdt")]).1 (by decide)).1,
   ((request_mutates_caller_params "https://api.huobi.pro" "ak" "sk" "GET" "/v1/x"
      "2020-09-10T12:00:00" [("symbol", "btcusdt")]).1 (by decide)).2.2.2.2.2⟩

/-- C4: a transport error is surfaced as `(None, error)`; on transport
success the body is parsed as JSON when it is not already structured,
and the call returns `(envelope, None)` exactly when the envelope's
`status` field equals `"ok"`, `(None, envelope)` otherwise; whenever the
call returns at all, exactly one of result and error is `None`. The
hypothesis restricts to bodies whose envelope is a JSON object, where
the Python returns instead of raising. -/
theorem request_outcome_dichotomy (error : Option Json) (success : Body)
    (fs : List (String × Json)) (henv : parsedEnvelope success = some (Json.obj fs)) :
    (∀ e, error = some e → requestOutcome error success = some (none, some e)) ∧
    (error = none → jObjGet fs "status" = some (Json.str "ok") →
      requestOutcome error success = some (some (Json.obj fs), none)) ∧
    (error = none → ¬ jObjGet fs "status" = some (Json.str "ok") →
      requestOutcome error success = some (none, some (Json.obj fs))) ∧
    (∀ o, requestOutcome error success = some o →
      (∃ r, o = (some r, none)) ∨ (∃ e2, o = (none, some e2))) := by
  refine ⟨?_, ?_, ?_, ?_⟩
  · intro e he
    subst he
    rfl
  · intro he hok
    subst he
    have hst : statusOk fs = true := by simp [statusOk, hok]
    simp [requestOutcome, henv, hst]
  · intro he hnok
    subst he
    have hst : statusOk fs = false := by
      rcases hg : jObjGet fs "status" with _ | v
      · rw [statusOk, hg]
      · rcases v with _ | b | n | s | xs | fs2
        · rw [statusOk, hg]
        · rw [statusOk, hg]
        · rw [statusOk, hg]
        · rw [statusOk, hg]
          by_cases hs : s = "ok"
          · subst hs
            exact absurd hg hnok
          · simp [hs]
        · rw [statusOk, hg]
        · rw [statusOk, hg]
    simp [requestOutcome, henv, hst]
  · intro o ho
    rcases error with _ | e
    · rw [requestOutcome, henv] at ho
      by_cases hst : statusOk fs = true
      · simp [hst] at ho
        subst ho
        exact Or.inl ⟨Json.obj fs, rfl⟩
      · simp [hst] at ho
        subst ho
        exact Or.inr ⟨Json.obj fs, rfl⟩
    · rw [requestOutcome] at ho
      simp at ho
      subst ho
      exact Or.inr ⟨e, rfl⟩

theorem request_outcome_dichotomy_witness :
    parsedEnvelope (Body.raw "\x7b\"status\": \"error\", \"err-code\": \"order-orderstate-error\"\x7d") =
      some (Json.obj [("status", Json.str "error"), ("err-code", Json.str "order-orderstate-error")]) ∧
    requestOutcome none
        (Body.raw "\x7b\"status\": \"error\", \"err-code\": \"order-orderstate-error\"\x7d") =
      some (none, some (Json.obj [("status", Json.str "error"),
        ("err-code", Json.str "order-orderstate-error")])) ∧
    requestOutcome none (Body.dict [("status", Json.str "ok")]) =
      some (some (Json.obj [("status", Json.str "ok")]), none) ∧
    requestOutcome (some (Json.str "timeout")) (Body.dict [("status", Json.str "ok")]) =
      some (none, some (Json.str "timeout")) :=
  ⟨rfl,
   (request_outcome_dichotomy none
      (Body.raw "\x7b\"status\": \"error\", \"err-code\": \"order-orderstate-error\"\x7d")
      [("status", Json.str "error"), ("err-code", Json.str "order-orderstate-error")]
      rfl).2.2.1 rfl (by simp [jObjGet]),
   (request_outcome_dichotomy none (Body.dict [("status", Json.str "ok")])
      [("status", Json.str "ok")] rfl).2.1 rfl rfl,
   (request_outcome_dichotomy (some (Json.str "timeout"))
      (Body.dict [("status", Json.str "ok")])
      [("status", Json.str "ok")] rfl).1 (Json.str "timeout") rfl⟩

/-- Core of the absolute-URL path rewrite: on a URL of shape
`scheme ++ "//" ++ authority ++ "/" ++ rest` (the authority delimited by
the first `/`, `?` or `#`, here a `/`), the source's
`'/' + '/'.join(url.split('/')[3:])` equals the path component from the
first slash after the authority on. -/
theorem abs_path_rewrite (schemeChars t : List Char)
    (hscheme : ∀ x ∈ schemeChars, ¬ x = '/')
    (hsl : (t.dropWhile (fun c => !(c = '/' || c = '?' || c = '#'))).head? = some '/') :
    '/' :: joinChar '/' ((splitChar '/' (schemeChars ++ '/' :: '/' :: t)).drop 3) =
      t.dropWhile (fun c => !(c = '/')) := by
  obtain ⟨pr, hd⟩ : ∃ pr,
      t.dropWhile (fun c => !(c = '/' || c = '?' || c = '#')) = '/' :: pr := by
    rcases hdd : t.dropWhile (fun c => !(c = '/' || c = '?' || c = '#')) with _ | ⟨c, cs⟩
    · rw [hdd] at hsl; simp at hsl
    · rw [hdd] at hsl
      simp only [List.head?_cons, Option.some.injEq] at hsl
      exact ⟨cs, by rw [hsl]⟩
  have hnq : ∀ x ∈ t.takeWhile (fun c => !(c = '/' || c = '?' || c = '#')), ¬ x = '/' := by
    intro x hx
    have h2 := List.mem_takeWhile_imp hx
    simp only [Bool.not_eq_true', Bool.or_eq_false_iff, decide_eq_false_iff_not] at h2
    exact h2.1.1
  have ht : t = t.takeWhile (fun c => !(c = '/' || c = '?' || c = '#')) ++ '/' :: pr := by
    conv_lhs => rw [← List.takeWhile_append_dropWhile
      (fun c => !(c = '/' || c = '?' || c = '#')) t]
    rw [hd]
  conv_lhs => rw [ht]
  conv_rhs => rw [ht]
  rw [splitChar_no_sep_append '/' schemeChars _ hscheme]
  rw [splitChar_cons_sep]
  rw [splitChar_no_sep_append '/' _ pr hnq]
  have s4 : (schemeChars :: ([] : List Char) ::
      t.takeWhile (fun c => !(c = '/' || c = '?' || c = '#')) ::
      splitChar '/' pr).drop 3 = splitChar '/' pr := rfl
  rw [s4, joinChar_splitChar]
  rw [dropWhile_append_of_all (fun c => !(c = '/'))
    (t.takeWhile (fun c => !(c = '/' || c = '?' || c = '#'))) ('/' :: pr)
    (fun x hx => by simp [hnq x hx])]
  simp

/-- C6: an absolute request path (starting `http://` or `https://`) is
used verbatim as the resolved URL, bypassing host joining, and signing
uses that URL's lower-cased hostname together with its path-only
component, leading slash preserved (stated for URLs whose authority is
followed by a slash); a relative path is joined onto the configured base
host and signing uses the configured host's hostname with the path
unchanged. -/
theorem request_url_resolution (host uri : String) :
    (isAbsUrl uri = true →
      resolveUrl host uri = uri ∧
      (((uri.data.drop (schemePrefixLen uri)).dropWhile
          (fun c => !(c = '/' || c = '?' || c = '#'))).head? = some '/' →
        sigHostAndPath host uri = (strLower (urlparseHostname uri), urlPathComponent uri))) ∧
    (isAbsUrl uri = false →
      resolveUrl host uri = urljoinAbsPath host uri ∧
      sigHostAndPath host uri = (strLower (urlparseHostname host), uri)) := by
  constructor
  · intro habs
    refine ⟨by simp [resolveUrl, habs], ?_⟩
    intro hsl
    rw [sigHostAndPath, if_pos habs]
    have hpath : String.mk ('/' :: joinChar '/' ((splitChar '/' uri.data).drop 3)) =
        urlPathComponent uri := by
      by_cases h7 : strStartsWith uri "http://" = true
      · obtain ⟨t, ht⟩ : ∃ t, uri.data = "http://".data ++ t := by
          obtain ⟨t, ht2⟩ := List.isPrefixOf_iff_prefix.mp h7
          exact ⟨t, ht2.symm⟩
        have hpfx : schemePrefixLen uri = 7 := by
          rw [schemePrefixLen, if_pos h7]
        have hdrop : uri.data.drop 7 = t := by rw [ht]; rfl
        rw [hpfx, hdrop] at hsl
        have ht2 : uri.data = "http:".data ++ '/' :: '/' :: t := ht
        rw [urlPathComponent, hpfx, hdrop, ht2]
        exact congrArg String.mk
          (abs_path_rewrite "http:".data t (by decide) hsl)
      · have h8 : strStartsWith uri "https://" = true := by
          rw [isAbsUrl] at habs
          cases hx : strStartsWith uri "http://" with
          | true => exact absurd hx h7
          | false => rw [hx] at habs; simpa using habs
        obtain ⟨t, ht⟩ : ∃ t, uri.data = "https://".data ++ t := by
          obtain ⟨t, ht2⟩ := List.isPrefixOf_iff_prefix.mp h8
          exact ⟨t, ht2.symm⟩
        have hpfx : schemePrefixLen uri = 8 := by
          rw [schemePrefixLen, if_neg h7, if_pos h8]
        have hdrop : uri.data.drop 8 = t := by rw [ht]; rfl
        rw [hpfx, hdrop] at hsl
        have ht2 : uri.data = "https:".data ++ '/' :: '/' :: t := ht
        rw [urlPathComponent, hpfx, hdrop, ht2]
        exact congrArg String.mk
          (abs_path_rewrite "https:".data t (by decide) hsl)
    rw [hpath]
  · intro habs
    refine ⟨by simp [resolveUrl, habs], ?_⟩
    rw [sigHostAndPath, if_neg (by simp [habs])]

theorem request_url_resolution_witness :
    resolveUrl "https://api.huobi.pro" "https://api.example.com/v1/x" =
      "https://api.example.com/v1/x" ∧
    sigHostAndPath "https://api.huobi.pro" "https://api.example.com/v1/x" =
      (strLower (urlparseHostname "https://api.example.com/v1/x"),
       urlPathComponent "https://api.example.com/v1/x") ∧
    resolveUrl "https://api.huobi.pro" "/market/depth" =
      urljoinAbsPath "https://api.huobi.pro" "/market/depth" ∧
    sigHostAndPath "https://api.huobi.pro" "/market/depth" =
      (strLower (urlparseHostname "https://api.huobi.pro"), "/market/depth") :=
  ⟨((request_url_resolution "https://api.huobi.pro" "https://api.example.com/v1/x").1
      (by decide)).1,
   ((request_url_resolution "https://api.huobi.pro" "https://api.example.com/v1/x").1
      (by decide)).2 (by decide),
   ((request_url_resolution "https://api.huobi.pro" "/market/depth").2 (by decide)).1,
   ((request_url_resolution "https://api.huobi.pro" "/market/depth").2 (by decide)).2⟩

/-- Test vector: SHA-256 of `"abc"` (FIPS 180-2 appendix B.1). -/
example : sha256 (utf8 "abc") =
    [0xba, 0x78, 0x16, 0xbf, 0x8f, 0x01, 0xcf, 0xea, 0x41, 0x41, 0x40, 0xde, 0x5d, 0xae, 0x22, 0x23,
     0xb0, 0x03, 0x61, 0xa3, 0x96, 0x17, 0x7a, 0x9c, 0xb4, 0x10, 0xff, 0x61, 0xf2, 0x00, 0x15, 0xad] := by
  decide

/-- Test vector: HMAC-SHA256, RFC 4231 test case 2 (key `"Jefe"`,
data `"what do ya want for nothing?"`). -/
example : hmacSha256 (utf8 "Jefe") (utf8 "what do ya want for nothing?") =
    [0x5b, 0xdc, 0xc1, 0x46, 0xbf, 0x60, 0x75, 0x4e, 0x6a, 0x04, 0x24, 0x26, 0x08, 0x95, 0x75, 0xc7,
     0x5a, 0x00, 0x3f, 0x08, 0x9d, 0x27, 0x39, 0x83, 0x9d, 0xec, 0x58, 0xb9, 0x64, 0xec, 0x38, 0x43] := by
  decide

/-- Test vector: base64 of `"Man"`, `"Ma"`, `"M"`. -/
example : b64encode (utf8 "Man") = "TWFu" ∧ b64encode (utf8 "Ma") = "TWE=" ∧
    b64encode (utf8 "M") = "TQ==" := by decide

/-- Cross-check against `urllib.parse.urlencode` on mixed input (escaping,
`+` for space, sorted keys with capitals first). -/
example : urlencode (sortParams [("b x", "1+2"), ("a", "é/~"), ("Timestamp", "2020-09-10T12:00:00")]) =
    "Timestamp=2020-09-10T12%3A00%3A00&a=%C3%A9%2F~&b+x=1%2B2" := by decide

/-- Cross-check against `urllib.parse.urlparse(...).hostname`. -/
example : urlparseHostname "https://API.Example.com:8080/v1/x?a=b" = "api.example.com" ∧
    urlparseHostname "https://user@API.Example.com/v1/x" = "api.example.com" := by decide

/-- Cross-check of the absolute-URL host and path rewrite. -/
example : sigHostAndPath "https://api.huobi.pro" "https://api.example.com/v1/x?a=b" =
    ("api.example.com", "/v1/x?a=b") := by decide

/-- Cross-check against `urllib.parse.urljoin` for a path-absolute reference. -/
example : urljoinAbsPath "https://api.huobi.pro/old/path?q=1" "/v1/x" =
    "https://api.huobi.pro/v1/x" := by decide

/-- End-to-end cross-check of the signature engine against the Python
source evaluated on the same inputs (relative path). -/
example : generate_signature "https://api.huobi.pro" "secretK" "GET"
    [("symbol", "btcusdt"), ("type", "step0"), ("Timestamp", "2020-09-10T12:00:00")]
    "/market/depth" = "Ul69zJjOp/oH262Y+DhcezWLjfJrIj2PQ/aytxNkAjU=" := by decide

/-- End-to-end cross-check of the signature engine against the Python
source evaluated on the same inputs (absolute path). -/
example : generate_signature "https://api.huobi.pro" "secretK" "POST"
    [("AccessKeyId", "ak"), ("SignatureMethod", "HmacSHA256"), ("SignatureVersion", "2"),
     ("Timestamp", "2020-09-10T12:00:00")]
    "https://api.huobi.pro/v1/futures/transfer" = "2+JjK6ai5/LwB0MCEif08G8Sia+zhA4HZNpOImtF+Vg=" := by
  decide

end HuobiSpot
